import Mathlib

/-!
Shallow embedding of `litex/soc/interconnect/csr_eventmanager.py`
(the event manager that generates interrupt controllers) and proofs
about it.

The embedding covers:
- the three event source variants (`EventSourcePulse`, `EventSourceProcess`,
  `EventSourceLevel`) as synchronous step functions over Bool signals
  (migen sync statement lists are lowered as in the generated Verilog:
  every right-hand side reads the pre-edge value of a signal, and among
  several assignments to the same signal the later statement wins);
- `EventManager.do_finalize` as an elaboration-time function from the
  multiset of attached sources to either a Python exception or the
  synthesized register layout, together with value-level functions for
  the combinational equations it emits (per-bit wiring, clear, irq);
- the attach path (`EventManager.__setattr__`) and the finalize lifecycle.
-/

deriving instance DecidableEq for Except

namespace EvMgr

/-- Python exceptions that the modelled code can raise.
`FinalizeError` is raised by `__setattr__` on a finalized manager (the
spec calls this condition `AlreadyFinalized`); `NameError` models a read
of an unbound local; `TypeError` models `getattr` with a `None` attribute
name and `reduce` over an empty list; `AttributeError` models a failed
`getattr` lookup. -/
inductive PyErr where
  | FinalizeError
  | NameError
  | TypeError
  | AttributeError
deriving DecidableEq, Repr

/-- An attached event source as `EventManager.do_finalize` sees it: its
creation id (`DUID.duid`, a process-wide monotonic counter, hence unique),
its optional `name` and its optional `description`.  The trigger variant
only influences generated documentation text, which no claim depends on,
so it is not recorded here; the per-variant signal semantics are modelled
separately below. -/
structure Source where
  duid : Nat
  name : Option String
  description : Option String
deriving DecidableEq, Repr

/-- Python `str`, applied to an optional string (`str(None) = "None"`). -/
def pyStr : Option String → String
  | some s => s
  | none => "None"

/-- Insert a source into a list sorted by `duid` ascending, before any
element with an equal or larger `duid` (stable, like Python `sorted`). -/
def insertByDuid (s : Source) : List Source → List Source
  | [] => [s]
  | t :: ts => if s.duid ≤ t.duid then s :: t :: ts else t :: insertByDuid s ts

/-- `sorted(sources_u, key=lambda x: x.duid)` (line 159): stable sort of
the attached sources by creation id ascending. -/
def sortByDuid : List Source → List Source
  | [] => []
  | s :: ss => insertByDuid s (sortByDuid ss)

/-- CSRField name for the source at bit `i` (lines 170-179, 190-199,
209-218): the source name when present, else the positional fallback
`eventI`. -/
def fieldName (s : Source) (i : Nat) : String :=
  match s.name with
  | some nm => nm
  | none => "event" ++ toString i

/-- Field names of one register, for sources at bit positions
`i, i+1, ...`. -/
def fieldNamesFrom (i : Nat) : List Source → List String
  | [] => []
  | s :: ss => fieldName s i :: fieldNamesFrom (i + 1) ss

/-- Value of the local `desc` after one iteration of the status loop
(lines 165-168). -/
def statusDescFor (s : Source) : String :=
  match s.description with
  | none => "This register contains the current raw level of the " ++ pyStr s.name ++ " event trigger.  Writes to this register have no effect."
  | some d => d

/-- Value of the local `desc` after one iteration of the pending loop
(lines 185-188). -/
def pendingDescFor (s : Source) : String :=
  match s.description with
  | none => "When a  " ++ pyStr s.name ++ " event occurs, the corresponding bit will be set in this register.  To clear the Event, set the corresponding bit in this register."
  | some d => d

/-- Value of the local `desc` after one iteration of the enable loop
(lines 205-208). -/
def enableDescFor (s : Source) : String :=
  match s.description with
  | none => "This register enables the corresponding " ++ pyStr s.name ++ " events.  Write a `0` to this register to disable individual events."
  | some d => d

/-- The Python local `desc` at the end of the status loop: rebound on
every iteration, unbound (`none`) when the loop body never ran, which
makes line 180 raise `NameError` for an empty source list. -/
def statusRegDesc (sources : List Source) : Option String :=
  sources.foldl (fun _ s => some (statusDescFor s)) none

/-- The Python local `desc` at the end of the pending loop (line 200). -/
def pendingRegDesc (sources : List Source) : Option String :=
  sources.foldl (fun _ s => some (pendingDescFor s)) none

/-- The Python local `desc` at the end of the enable loop (line 219). -/
def enableRegDesc (sources : List Source) : Option String :=
  sources.foldl (fun _ s => some (enableDescFor s)) none

/-- `getattr(register.fields, source.name)` as used by the wiring loop
(lines 222-226): `getattr` with attribute name `None` raises `TypeError`;
with a string it succeeds exactly when a field of that name exists. -/
def getattrByName (fieldNames : List String) : Option String → Except PyErr String
  | none => .error .TypeError
  | some nm => if nm ∈ fieldNames then .ok nm else .error .AttributeError

/-- The wiring loop of lines 221-226: for each source, look up its field
in the status register (line 223), in the pending register (line 224) and
in the pending register again for the clear term (line 225).  The emitted
combinational equations themselves are modelled by `clearSignal` and
`irqSignal` below. -/
def wireSources (statusF pendF : List String) : List Source → Except PyErr Unit
  | [] => .ok ()
  | s :: ss => do
    let _ ← getattrByName statusF s.name
    let _ ← getattrByName pendF s.name
    let _ ← getattrByName pendF s.name
    wireSources statusF pendF ss

/-- The register layout produced by a successful `do_finalize`: the bit
order (`sources`, bit 0 first), the per-register field names in bit order
and the register description texts. -/
structure Regs where
  n : Nat
  sources : List Source
  statusFields : List String
  pendingFields : List String
  enableFields : List String
  statusDesc : String
  pendingDesc : String
  enableDesc : String
deriving DecidableEq, Repr

/-- The body of `EventManager.do_finalize` (lines 158-229) after the
attached sources have been sorted: build the three registers (raising
`NameError` when the `desc` local was never bound, i.e. when there are no
sources), run the wiring loop (which raises `TypeError` for a source
whose `name` is `None`), and elaborate the irq reduction of line 229
(`reduce(or_, irqs)` raises `TypeError` on an empty list, which is
unreachable because the `NameError` fires first). -/
def buildRegs (sources : List Source) : Except PyErr Regs :=
  match statusRegDesc sources with
  | none => .error .NameError
  | some sd =>
    match pendingRegDesc sources with
    | none => .error .NameError
    | some pd =>
      match enableRegDesc sources with
      | none => .error .NameError
      | some ed =>
        match wireSources (fieldNamesFrom 0 sources) (fieldNamesFrom 0 sources) sources with
        | .error e => .error e
        | .ok _ =>
          if sources.isEmpty then .error .TypeError
          else .ok {
            n := sources.length
            sources := sources
            statusFields := fieldNamesFrom 0 sources
            pendingFields := fieldNamesFrom 0 sources
            enableFields := fieldNamesFrom 0 sources
            statusDesc := sd
            pendingDesc := pd
            enableDesc := ed }

/-- `EventManager.do_finalize` on the attached sources in attachment
order: sort by creation id (lines 158-159), then synthesize. -/
def doFinalize (attached : List Source) : Except PyErr Regs :=
  buildRegs (sortByDuid attached)

/-- `functools.reduce` without an initial value: `TypeError` (`none`) on
an empty sequence, otherwise a left fold started at the first element. -/
def reduce1 (f : α → α → α) : List α → Option α
  | [] => none
  | x :: xs => some (xs.foldl f x)

/-- Value semantics of the irq equation emitted by lines 228-229:
`irq = reduce(or_, [pending.status[i] & enable.storage[i] for i in range(n)])`,
where bit `i` of `pending.status` is source `i` pending output and bit
`i` of `enable.storage` is the software-written enable bit.  The `none`
case is the elaboration-time `TypeError` of `reduce` on an empty list. -/
def irqSignal (pend en : List Bool) : Option Bool :=
  reduce1 (fun a b => a || b) (List.zipWith (fun a b => a && b) pend en)

/-- Value semantics of the clear equation emitted by line 225:
`If(self.pending.re & getattr(self.pending.fields, source.name), source.clear.eq(1))`.
`pending.re` is the bus write strobe of the pending register and the
field signal is combinationally driven from the source pending output by
line 224, so `clear = re AND source.pending`. -/
def clearSignal (re sourcePending : Bool) : Bool :=
  re && sourcePending

/-- Modelled from the spec: the pending register is a CSRStatus built by
the external CSR facility (not under src/), whose field values are driven
by hardware (here wired from each source pending output, line 224) and
whose write strobe `re` pulses for one cycle on a bus write transaction;
the written data is not captured anywhere.  During a write transaction
the clear signal of the source at bit `i` is therefore
`clearSignal true (pending bit i)`, whatever data the write carries. -/
def pendingWriteClearBits (writeData sourcePendings : List Bool) : List Bool :=
  sourcePendings.map (fun p => clearSignal true p)

/-- The manager state: the attribute dictionary entries holding event
sources, in insertion order (Python instance `__dict__` order, what
`xdir` enumerates at line 158), the migen `finalized` flag, and the
registers once built. -/
structure Mgr where
  attrs : List (String × Source)
  finalized : Bool
  regs : Option Regs
deriving DecidableEq, Repr

/-- `object.__setattr__` on the instance dictionary: re-assigning an
existing attribute name replaces its value in place, a new name is
appended. -/
def updateAttr : List (String × Source) → String → Source → List (String × Source)
  | [], n, s => [(n, s)]
  | (k, v) :: rest, n, s =>
    if k = n then (k, s) :: rest else (k, v) :: updateAttr rest n s

/-- `EventManager.__setattr__` for an `_EventSource` value (lines
231-236): the attribute is set first via `object.__setattr__`, then
`FinalizeError` is raised when the manager is already finalized (the
registers built earlier are untouched). -/
def setattrES (m : Mgr) (attrName : String) (s : Source) : Option PyErr × Mgr :=
  let m' : Mgr := { m with attrs := updateAttr m.attrs attrName s }
  if m.finalized then (some .FinalizeError, m') else (none, m')

/-- Modelled from the spec: the finalize lifecycle wrapper around
`do_finalize` (the migen `Module.finalize` machinery and the `finalized`
flag live outside src/).  Per the spec, finalization is a one-way
transition that must occur exactly once and a second call must fail with
`AlreadyFinalized`; on the first call the flag is set and `do_finalize`
runs on the attached sources in attribute order. -/
def finalizeMgr (m : Mgr) : Option PyErr × Mgr :=
  if m.finalized then (some .FinalizeError, m)
  else
    match doFinalize (m.attrs.map Prod.snd) with
    | .error e => (some e, { m with finalized := true })
    | .ok regs => (none, { m with finalized := true, regs := some regs })

/-- `EventSourcePulse` status (line 73): constant 0, whatever the
trigger. -/
def pulseStatus (trigger : Bool) : Bool :=
  false

/-- `EventSourcePulse` clocked pending update (lines 74-77):
`If(clear, pending.eq(0))` then `If(trigger, pending.eq(1))`; the later
statement wins, so trigger-set beats a same-cycle clear. -/
def pulsePendingNext (trigger clear pending : Bool) : Bool :=
  let p1 := if clear then false else pending
  if trigger then true else p1

/-- Pending trace of a Pulse source: `Signal()` resets to 0. -/
def pulsePendingAt (trig clr : Nat → Bool) : Nat → Bool
  | 0 => false
  | n + 1 => pulsePendingNext (trig n) (clr n) (pulsePendingAt trig clr n)

/-- Registered state of an `EventSourceProcess`: the pending flag and the
internal `old_trigger` register. -/
structure ProcessState where
  pending : Bool
  old_trigger : Bool
deriving DecidableEq, Repr

/-- `EventSourceProcess` status (line 88): combinationally equal to the
trigger. -/
def processStatus (trigger : Bool) : Bool :=
  trigger

/-- `EventSourceProcess` clocked update (lines 90-94):
`If(clear, pending.eq(0))`, `old_trigger.eq(trigger)`,
`If(~trigger & old_trigger, pending.eq(1))`.  All right-hand sides read
pre-edge values, so the edge test uses the previous `old_trigger`; the
edge-set statement comes last and wins over a same-cycle clear. -/
def processNext (trigger clear : Bool) (st : ProcessState) : ProcessState :=
  let p1 := if clear then false else st.pending
  { pending := if !trigger && st.old_trigger then true else p1
    old_trigger := trigger }

/-- State trace of a Process source: both registers reset to 0. -/
def processStateAt (trig clr : Nat → Bool) : Nat → ProcessState
  | 0 => { pending := false, old_trigger := false }
  | n + 1 => processNext (trig n) (clr n) (processStateAt trig clr n)

/-- `EventSourceLevel` status (line 107): combinationally the trigger.
The clear input exists on every `_EventSource` but is wired nowhere. -/
def levelStatus (trigger clear : Bool) : Bool :=
  trigger

/-- `EventSourceLevel` pending (line 108): combinationally the trigger;
no clocked state, clear unused. -/
def levelPending (trigger clear : Bool) : Bool :=
  trigger

theorem insertByDuid_perm (s : Source) (l : List Source) :
    List.Perm (insertByDuid s l) (s :: l) := by
  induction l with
  | nil => exact List.Perm.refl _
  | cons t ts ih =>
    simp only [insertByDuid]
    split
    · exact List.Perm.refl _
    · exact (ih.cons t).trans (List.Perm.swap s t ts)

theorem sortByDuid_perm (l : List Source) : List.Perm (sortByDuid l) l := by
  induction l with
  | nil => exact List.Perm.refl _
  | cons s ss ih => exact (insertByDuid_perm s (sortByDuid ss)).trans (ih.cons s)

theorem insertByDuid_pairwise {s : Source} {l : List Source}
    (h : l.Pairwise (fun a b => a.duid ≤ b.duid)) :
    (insertByDuid s l).Pairwise (fun a b => a.duid ≤ b.duid) := by
  induction l with
  | nil => simp [insertByDuid]
  | cons t ts ih =>
    rcases List.pairwise_cons.mp h with ⟨ht, hts⟩
    simp only [insertByDuid]
    split
    case isTrue hle =>
      refine List.pairwise_cons.mpr ⟨?_, h⟩
      intro b hb
      rcases List.mem_cons.mp hb with rfl | hb
      · exact hle
      · exact Nat.le_trans hle (ht b hb)
    case isFalse hgt =>
      refine List.pairwise_cons.mpr ⟨?_, ih hts⟩
      intro b hb
      have hb' : b = s ∨ b ∈ ts := by
        simpa using (insertByDuid_perm s ts).mem_iff.mp hb
      rcases hb' with rfl | hb'
      · exact Nat.le_of_lt (Nat.lt_of_not_le hgt)
      · exact ht b hb'

theorem sortByDuid_pairwise (l : List Source) :
    (sortByDuid l).Pairwise (fun a b => a.duid ≤ b.duid) := by
  induction l with
  | nil => simp [sortByDuid]
  | cons s ss ih => exact insertByDuid_pairwise ih

theorem duidNeSymm {a b : Source} (h : a.duid ≠ b.duid) : b.duid ≠ a.duid :=
  fun heq => h heq.symm

theorem sortByDuid_sorted_lt {l : List Source}
    (hnd : l.Pairwise (fun a b => a.duid ≠ b.duid)) :
    (sortByDuid l).Pairwise (fun a b => a.duid < b.duid) := by
  have hle := sortByDuid_pairwise l
  have hne : (sortByDuid l).Pairwise (fun a b => a.duid ≠ b.duid) :=
    ((sortByDuid_perm l).pairwise_iff duidNeSymm).mpr hnd
  exact (hle.and hne).imp (fun h => Nat.lt_of_le_of_ne h.1 h.2)

theorem sortByDuid_eq_of_perm {l l' : List Source}
    (hnd : l.Pairwise (fun a b => a.duid ≠ b.duid))
    (hp : List.Perm l l') :
    sortByDuid l = sortByDuid l' := by
  haveI : IsAntisymm Source (fun a b => a.duid < b.duid) :=
    ⟨fun a b h1 h2 => absurd (Nat.lt_trans h1 h2) (Nat.lt_irrefl _)⟩
  have hnd' : l'.Pairwise (fun a b => a.duid ≠ b.duid) :=
    (hp.pairwise_iff duidNeSymm).mp hnd
  exact List.eq_of_perm_of_sorted
    ((sortByDuid_perm l).trans (hp.trans (sortByDuid_perm l').symm))
    (sortByDuid_sorted_lt hnd) (sortByDuid_sorted_lt hnd')

theorem countP_rank {l : List Source}
    (hp : l.Pairwise (fun a b => a.duid < b.duid)) :
    ∀ i (h : i < l.length),
      l.countP (fun t => decide (t.duid < (l.get ⟨i, h⟩).duid)) = i := by
  induction l with
  | nil => intro i h; exact absurd h (Nat.not_lt_zero i)
  | cons a l ih =>
    rcases List.pairwise_cons.mp hp with ⟨ha, hl⟩
    intro i h
    cases i with
    | zero =>
      have h2 : l.countP (fun t => decide (t.duid < a.duid)) = 0 := by
        rw [List.countP_eq_zero]
        intro t ht
        simp only [decide_eq_true_eq]
        exact Nat.not_lt.mpr (Nat.le_of_lt (ha t ht))
      simp [List.countP_cons, h2]
    | succ j =>
      have hj : j < l.length := Nat.lt_of_succ_lt_succ h
      have hget : (a :: l).get ⟨j + 1, h⟩ = l.get ⟨j, hj⟩ := rfl
      have hpa : a.duid < (l.get ⟨j, hj⟩).duid := ha _ (l.get_mem j hj)
      rw [hget, List.countP_cons, ih hl j hj]
      have hpa' : a.duid < l[j].duid := hpa
      simp [hpa']

theorem buildRegs_ok {srcs : List Source} {regs : Regs}
    (h : buildRegs srcs = Except.ok regs) :
    regs.sources = srcs ∧ regs.n = srcs.length ∧
    regs.statusFields = fieldNamesFrom 0 srcs ∧
    regs.pendingFields = fieldNamesFrom 0 srcs ∧
    regs.enableFields = fieldNamesFrom 0 srcs ∧
    srcs ≠ [] := by
  unfold buildRegs at h
  split at h
  · simp at h
  · split at h
    · simp at h
    · split at h
      · simp at h
      · split at h
        · simp at h
        · split at h
          · simp at h
          · rename_i hnem
            cases h
            refine ⟨rfl, rfl, rfl, rfl, rfl, ?_⟩
            intro hnil
            rw [hnil] at hnem
            simp at hnem

/-- C1: for every manager and every set of attached event sources (with
the DUID invariant: pairwise distinct creation ids), after a successful
finalize the bit order is the duid-sorted order, the field at bit `i` of
each of the status, pending and enable registers belongs to the source at
bit `i`, the bit index of each source equals the rank of its creation id
among the attached sources, and the whole result is independent of the
attachment order. -/
theorem bit_index_eq_duid_rank (l l' : List Source) (regs : Regs)
    (hnd : l.Pairwise (fun a b => a.duid ≠ b.duid))
    (hperm : List.Perm l l')
    (hok : doFinalize l = Except.ok regs) :
    regs.sources = sortByDuid l ∧
    doFinalize l' = doFinalize l ∧
    regs.statusFields = fieldNamesFrom 0 regs.sources ∧
    regs.pendingFields = fieldNamesFrom 0 regs.sources ∧
    regs.enableFields = fieldNamesFrom 0 regs.sources ∧
    ∀ i (h : i < regs.sources.length),
      l.countP (fun t => decide (t.duid < (regs.sources.get ⟨i, h⟩).duid)) = i := by
  have hok' : buildRegs (sortByDuid l) = Except.ok regs := hok
  obtain ⟨hsrc, hn, hsf, hpf, hef, hne⟩ := buildRegs_ok hok'
  refine ⟨hsrc, ?_, ?_, ?_, ?_, ?_⟩
  · show buildRegs (sortByDuid l') = buildRegs (sortByDuid l)
    exact congrArg buildRegs (sortByDuid_eq_of_perm hnd hperm).symm
  · rw [hsf, hsrc]
  · rw [hpf, hsrc]
  · rw [hef, hsrc]
  · rw [hsrc]
    intro i h
    rw [← (sortByDuid_perm l).countP_eq]
    exact countP_rank (sortByDuid_sorted_lt hnd) i h

/-- Witness for C1 at a concrete input: two sources created as ids 0 and
1 but attached in the order 1, 0; finalization gives the same result as
for the attachment order 0, 1. -/
theorem bit_index_eq_duid_rank_witness :
    doFinalize [⟨0, some "a", none⟩, ⟨1, some "b", none⟩] =
      doFinalize [⟨1, some "b", none⟩, ⟨0, some "a", none⟩] := by
  cases hE : doFinalize [⟨1, some "b", none⟩, ⟨0, some "a", none⟩] with
  | error e =>
    have hOk : (doFinalize [⟨1, some "b", none⟩, ⟨0, some "a", none⟩]).isOk = true := by decide
    rw [hE] at hOk
    simp [Except.isOk, Except.toBool] at hOk
  | ok regs =>
    exact ((bit_index_eq_duid_rank _ _ regs (by decide)
      (List.Perm.swap ⟨0, some "a", none⟩ ⟨1, some "b", none⟩ []) hE).2.1).trans hE

theorem foldl_or_eq_any (xs : List Bool) (x : Bool) :
    xs.foldl (fun a b => a || b) x = (x || xs.any id) := by
  induction xs generalizing x with
  | nil => simp
  | cons y ys ih => simp [List.foldl_cons, ih, List.any_cons, Bool.or_assoc]

theorem irqSignal_eq_any {pend en : List Bool} (hne : pend ≠ [])
    (hlen : en.length = pend.length) :
    irqSignal pend en =
      some ((List.zipWith (fun a b => a && b) pend en).any id) := by
  cases pend with
  | nil => exact absurd rfl hne
  | cons p ps =>
    cases en with
    | nil => simp at hlen
    | cons e es => simp [irqSignal, reduce1, foldl_or_eq_any]

theorem any_zipWith_and_iff (pend : List Bool) :
    ∀ (en : List Bool), en.length = pend.length →
    (((List.zipWith (fun a b => a && b) pend en).any id = true) ↔
      ∃ i, i < pend.length ∧ pend.getD i false = true ∧ en.getD i false = true) := by
  induction pend with
  | nil =>
    intro en h
    simp
  | cons p ps ih =>
    intro en hlen
    cases en with
    | nil => simp at hlen
    | cons e es =>
      have hlen' : es.length = ps.length := by simpa using hlen
      rw [List.zipWith_cons_cons, List.any_cons]
      simp only [id_eq, Bool.or_eq_true, Bool.and_eq_true]
      rw [ih es hlen']
      constructor
      · rintro (⟨hp, he⟩ | ⟨j, hj, h1, h2⟩)
        · exact ⟨0, Nat.succ_pos _, by simpa using hp, by simpa using he⟩
        · exact ⟨j + 1, Nat.succ_lt_succ hj, by simpa using h1, by simpa using h2⟩
      · rintro ⟨i, hi, h1, h2⟩
        cases i with
        | zero => exact Or.inl ⟨by simpa using h1, by simpa using h2⟩
        | succ j =>
          exact Or.inr ⟨j, Nat.lt_of_succ_lt_succ hi, by simpa using h1, by simpa using h2⟩

/-- C2 counterexample: a manager with zero attached sources does not
finalize successfully; the status-register loop never binds the `desc`
local, so line 180 raises `NameError` (and line 229 would raise
`TypeError` from `reduce` over an empty list). -/
theorem finalize_empty_fails : doFinalize [] = Except.error PyErr.NameError := by
  rfl

/-- C2 (amended): every successfully finalized manager has at least one
source, and for such a manager the irq output is the OR over all bit
positions of (pending bit AND enable bit): it is 1 iff at least one
source has both its pending bit and its enable bit set.  A manager with
n = 0 raises during finalization instead of producing zero-width
registers. -/
theorem irq_or_reduction (l : List Source) (regs : Regs) (pend en : List Bool)
    (hok : doFinalize l = Except.ok regs)
    (hp : pend.length = regs.n) (he : en.length = regs.n) :
    1 ≤ regs.n ∧
    ∃ b, irqSignal pend en = some b ∧
      (b = true ↔ ∃ i, i < regs.n ∧ pend.getD i false = true ∧ en.getD i false = true) := by
  have hok' : buildRegs (sortByDuid l) = Except.ok regs := hok
  obtain ⟨hsrc, hn, _, _, _, hne⟩ := buildRegs_ok hok'
  have hpos : 1 ≤ regs.n := by
    rw [hn]
    exact List.length_pos.mpr hne
  refine ⟨hpos, ?_⟩
  have hpne : pend ≠ [] := by
    intro h0
    rw [h0] at hp
    simp at hp
    omega
  have hlen : en.length = pend.length := he.trans hp.symm
  refine ⟨(List.zipWith (fun a b => a && b) pend en).any id,
    irqSignal_eq_any hpne hlen, ?_⟩
  rw [← hp]
  exact any_zipWith_and_iff pend en hlen

/-- Witness for C2 (amended) at a concrete input: one source, pending and
enable both set. -/
theorem irq_or_reduction_witness :
    ∃ b, irqSignal [true] [true] = some b ∧
      (b = true ↔ ∃ i, i < 1 ∧ [true].getD i false = true ∧ [true].getD i false = true) := by
  cases hE : doFinalize [⟨0, some "a", none⟩] with
  | error e =>
    have hOk : (doFinalize [⟨0, some "a", none⟩]).isOk = true := by decide
    rw [hE] at hOk
    simp [Except.isOk, Except.toBool] at hOk
  | ok regs =>
    have hok' : buildRegs (sortByDuid [⟨0, some "a", none⟩]) = Except.ok regs := hE
    have hn : regs.n = 1 := by
      obtain ⟨_, hn, _⟩ := buildRegs_ok hok'
      simpa using hn
    have hmain := irq_or_reduction [⟨0, some "a", none⟩] regs [true] [true] hE
      (by simp [hn]) (by simp [hn])
    rw [hn] at hmain
    exact hmain.2

/-- C3 evaluation at the failing input: one source whose pending output
is 1, and a bus write to the pending register whose data has bit 0 equal
to 0.  The code still drives the clear signal (the clear term ANDs the
write strobe with the field value, which is wired from the source
pending output, not with the written data), where the claim and the class
docstring say only a write with bit 0 set may clear. -/
theorem pending_write_zero_still_clears :
    pendingWriteClearBits [false] [true] = [true] ∧
    clearSignal true true = true ∧
    clearSignal true false = false := by
  decide

/-- C4: for a Pulse source the status is constantly 0 and the clocked
pending update evaluates the clear statement before the trigger
statement, the later statement winning: one trigger cycle sets pending,
pending holds while clear is low, clear alone resets it, and simultaneous
trigger and clear leave pending set. -/
theorem pulse_semantics (trig clr : Nat → Bool) (n : Nat) :
    pulseStatus (trig n) = false ∧
    (trig n = true → pulsePendingAt trig clr (n + 1) = true) ∧
    (trig n = true ∧ clr n = true → pulsePendingAt trig clr (n + 1) = true) ∧
    (pulsePendingAt trig clr n = true → clr n = false →
      pulsePendingAt trig clr (n + 1) = true) ∧
    (clr n = true → trig n = false → pulsePendingAt trig clr (n + 1) = false) ∧
    pulsePendingAt trig clr (n + 1) =
      (if trig n then true else if clr n then false else pulsePendingAt trig clr n) := by
  refine ⟨rfl, ?_, ?_, ?_, ?_, ?_⟩
  · intro h
    simp [pulsePendingAt, pulsePendingNext, h]
  · rintro ⟨h1, h2⟩
    simp [pulsePendingAt, pulsePendingNext, h1]
  · intro h1 h2
    simp [pulsePendingAt, pulsePendingNext, h1, h2]
  · intro h1 h2
    simp [pulsePendingAt, pulsePendingNext, h1, h2]
  · simp [pulsePendingAt, pulsePendingNext]

/-- Witness for C4: trigger pulsed during cycle 0, pending is set at
cycle 1. -/
theorem pulse_semantics_witness :
    pulsePendingAt (fun k => decide (k = 0)) (fun _ => false) 1 = true :=
  (pulse_semantics (fun k => decide (k = 0)) (fun _ => false) 0).2.1 (by decide)

/-- C5: for a Process source the status combinationally equals the
trigger, `old_trigger` holds the previous trigger value, pending is set
one cycle after a falling edge of the trigger, stays set while clear is
low, and can only become set through a falling edge. -/
theorem process_semantics (trig clr : Nat → Bool) (n : Nat) :
    processStatus (trig n) = trig n ∧
    (processStateAt trig clr (n + 1)).old_trigger = trig n ∧
    (trig n = true → trig (n + 1) = false →
      (processStateAt trig clr (n + 2)).pending = true) ∧
    ((processStateAt trig clr n).pending = true → clr n = false →
      (processStateAt trig clr (n + 1)).pending = true) ∧
    ((processStateAt trig clr (n + 2)).pending = true →
      (processStateAt trig clr (n + 1)).pending = false →
      trig n = true ∧ trig (n + 1) = false) := by
  have hstep : ∀ k, processStateAt trig clr (k + 1) =
      processNext (trig k) (clr k) (processStateAt trig clr k) := fun k => rfl
  refine ⟨rfl, rfl, ?_, ?_, ?_⟩
  · intro h1 h2
    rw [hstep (n + 1)]
    simp [processNext, hstep n, h1, h2]
  · intro h1 h2
    rw [hstep n]
    simp [processNext, h1, h2]
  · intro h1 h2
    rw [hstep (n + 1)] at h1
    have hold : (processStateAt trig clr (n + 1)).old_trigger = trig n := rfl
    simp [processNext, hold, h2] at h1
    exact ⟨h1.2, by simpa using h1.1⟩

/-- Witness for C5: trigger high during cycle 0, low during cycle 1
(falling edge); pending is set at cycle 2. -/
theorem process_semantics_witness :
    (processStateAt (fun k => decide (k = 0)) (fun _ => false) 2).pending = true :=
  (process_semantics (fun k => decide (k = 0)) (fun _ => false) 0).2.2.1
    (by decide) (by decide)

/-- C6: for a Level source the status and pending outputs both
combinationally equal the trigger at all times, and the clear input has
no observable effect on either output. -/
theorem level_semantics (t c c' : Bool) :
    levelStatus t c = t ∧ levelPending t c = t ∧
    levelStatus t c = levelStatus t c' ∧ levelPending t c = levelPending t c' :=
  ⟨rfl, rfl, rfl, rfl⟩

/-- C7: on a finalized manager, attaching a source raises
`FinalizeError` (the condition the spec names `AlreadyFinalized`) and the
already-built registers are unchanged; a second finalize call fails the
same way and leaves the manager untouched. -/
theorem finalized_rejects_mutation (m : Mgr) (attrName : String) (s : Source)
    (hf : m.finalized = true) :
    (setattrES m attrName s).1 = some PyErr.FinalizeError ∧
    (setattrES m attrName s).2.regs = m.regs ∧
    finalizeMgr m = (some PyErr.FinalizeError, m) := by
  refine ⟨?_, ?_, ?_⟩ <;> simp [setattrES, finalizeMgr, hf]

/-- Witness for C7 at a concrete finalized manager. -/
theorem finalized_rejects_mutation_witness :
    (setattrES { attrs := [], finalized := true, regs := none } "x"
      ⟨0, some "a", none⟩).1 = some PyErr.FinalizeError :=
  (finalized_rejects_mutation { attrs := [], finalized := true, regs := none }
    "x" ⟨0, some "a", none⟩ rfl).1

/-- C8 counterexample: attaching the same source instance a second time,
under a second attribute name, is accepted (no error is raised: attach
only checks the finalized flag), and finalization then allocates two bits
to that source. -/
theorem duplicate_attach_accepted :
    (setattrES { attrs := [("x", ⟨0, some "a", none⟩)], finalized := false, regs := none }
        "y" ⟨0, some "a", none⟩).1 = none ∧
    ((setattrES { attrs := [("x", ⟨0, some "a", none⟩)], finalized := false, regs := none }
        "y" ⟨0, some "a", none⟩).2.attrs.map Prod.snd) =
      [⟨0, some "a", none⟩, ⟨0, some "a", none⟩] ∧
    Except.map Regs.sources (doFinalize [⟨0, some "a", none⟩, ⟨0, some "a", none⟩]) =
      Except.ok [⟨0, some "a", none⟩, ⟨0, some "a", none⟩] := by
  decide

/-- C8 (amended): attach never checks for duplicates: on an open manager
any attach succeeds, and attaching the same source under two distinct
attribute names leaves it twice in the attached set, so it is allocated
two bits at finalization instead of being rejected with a
DuplicateSource failure. -/
theorem attach_no_duplicate_check (m : Mgr) (n1 n2 : String) (s : Source)
    (hf : m.finalized = false) (hne : n1 ≠ n2) (hempty : m.attrs = []) :
    (setattrES m n1 s).1 = none ∧
    (setattrES (setattrES m n1 s).2 n2 s).1 = none ∧
    ((setattrES (setattrES m n1 s).2 n2 s).2.attrs.map Prod.snd) = [s, s] := by
  refine ⟨?_, ?_, ?_⟩ <;> simp [setattrES, updateAttr, hf, hempty, hne]

/-- Witness for C8 (amended) at a concrete open manager. -/
theorem attach_no_duplicate_check_witness :
    ((setattrES (setattrES { attrs := [], finalized := false, regs := none } "x"
        ⟨0, some "a", none⟩).2 "y" ⟨0, some "a", none⟩).2.attrs.map Prod.snd) =
      [⟨0, some "a", none⟩, ⟨0, some "a", none⟩] :=
  (attach_no_duplicate_check { attrs := [], finalized := false, regs := none }
    "x" "y" ⟨0, some "a", none⟩ rfl (by decide) rfl).2.2

/-- C9 evaluation at the failing input: a single attached source whose
name is `None`.  The register fields are created with the positional
fallback name `event0`, but the wiring loop then calls `getattr` with the
raw `source.name`, i.e. with `None`, which raises `TypeError`: finalize
does not succeed as the claim states. -/
theorem unnamed_source_finalize_raises :
    fieldNamesFrom 0 [⟨0, none, none⟩] = ["event0"] ∧
    doFinalize [⟨0, none, none⟩] = Except.error PyErr.TypeError := by
  decide

theorem map_clear_true (l : List Bool) : l.map (fun p => clearSignal true p) = l := by
  induction l with
  | nil => rfl
  | cons x xs ih => simp [clearSignal, ih]

/-- C10: during a write transaction to the pending register the clear
signal of each source is the write strobe ANDed with that source current
pending output, independent of the written data: any write clears every
currently-pending source and no non-pending source, and without a write
strobe no clear is asserted. -/
theorem clear_ignores_write_data (d d' pend : List Bool) :
    pendingWriteClearBits d pend = pendingWriteClearBits d' pend ∧
    pendingWriteClearBits d pend = pend ∧
    (∀ re p, clearSignal re p = (re && p)) ∧
    clearSignal false true = false :=
  ⟨rfl, map_clear_true pend, fun re p => rfl, rfl⟩

end EvMgr
